import Mathlib

/-!
Verification of the spreadsheet-to-database import pipeline.

The development shallowly embeds the pipeline's core:
  * JavaScript-object primitives over association lists (`jsGet`, `jsSet`,
    `jsDelete`), mirroring insertion-ordered string-keyed objects;
  * the multilingual header table and `mapHeader` of `src/excel-parser.js`,
    and the record-shaping portion of `parseExcel` (`parseExcelShape`);
  * the persistence-time field normalizer `normalizePersonFields` and the
    connection registry of `src/database.js`;
  * the SQLite and MySQL adapters' `saveToDatabase` batch-insert loops, with
    the engine's per-record accept/reject behaviour abstracted as an oracle
    `f : Record → Bool` and commit success as a Boolean parameter.

Cells are modelled as `Option String` (`none` = an undefined/missing cell,
values already stringified); JavaScript truthiness of a string field is
"present and non-empty".
-/

set_option maxHeartbeats 1000000

namespace AsinImport

/-- A JavaScript object with string values: insertion-ordered key/value list. -/
abbrev Record := List (String × String)

/-- Property read `obj[k]`: first entry with the key, if any. -/
def jsGet {α : Type} : List (String × α) → String → Option α
  | [], _ => none
  | (k1, v) :: rest, k => if k1 = k then some v else jsGet rest k

/-- Property write `obj[k] = v`: replace in place if present, else append. -/
def jsSet {α : Type} : List (String × α) → String → α → List (String × α)
  | [], k, v => [(k, v)]
  | (k1, v1) :: rest, k, v =>
    if k1 = k then (k, v) :: rest else (k1, v1) :: jsSet rest k v

/-- Property removal `delete obj[k]`. -/
def jsDelete {α : Type} : List (String × α) → String → List (String × α)
  | [], _ => []
  | (k1, v1) :: rest, k =>
    if k1 = k then jsDelete rest k else (k1, v1) :: jsDelete rest k

/-- JavaScript truthiness of an optional string field:
`undefined` and the empty string are falsy. -/
def truthy : Option String → Bool
  | none => false
  | some s => s != ""

/-- The trimming `s.trim()`: drop leading and trailing whitespace. -/
def jsTrim (s : String) : String :=
  String.mk (((s.data.dropWhile Char.isWhitespace).reverse.dropWhile
    Char.isWhitespace).reverse)

/-- Character-list worker for `jsSplitWS`: the maximal non-whitespace runs,
accumulating the current run in reverse. -/
def wsTokens : List Char → List Char → List String
  | [], cur => if cur.isEmpty then [] else [String.mk cur.reverse]
  | c :: rest, cur =>
    if c.isWhitespace then
      if cur.isEmpty then wsTokens rest [] else String.mk cur.reverse :: wsTokens rest []
    else wsTokens rest (c :: cur)

/-- The splitting `s.split(/\s+/)` as applied to already-trimmed strings:
the empty string yields `[""]`, otherwise the non-empty whitespace-separated
tokens. -/
def jsSplitWS (s : String) : List String :=
  if s = "" then [""] else wsTokens s.data []

/-- `parts.join(" ")` of a JavaScript array of strings. -/
def jsJoinSpace : List String → String
  | [] => ""
  | [a] => a
  | a :: rest => a ++ " " ++ jsJoinSpace rest

/-- `s.toLowerCase()` (ASCII letters; all headers in the tables are already
lower-case where it matters). -/
def jsToLower (s : String) : String := String.mk (s.data.map Char.toLower)

/-- Character-list worker for `replaceWsRuns`; the flag records whether the
previous character was whitespace. -/
def replaceWsAux : List Char → Bool → List Char
  | [], _ => []
  | c :: rest, prevWs =>
    if c.isWhitespace then
      (if prevWs then [] else ['_']) ++ replaceWsAux rest true
    else c :: replaceWsAux rest false

/-- The substitution `s.replace(/\s+/g, "_")`: each maximal whitespace run
becomes a single underscore. -/
def replaceWsRuns (s : String) : String := String.mk (replaceWsAux s.data false)

/-- HEADER_MAPPINGS of src/excel-parser.js, in source order. -/
def headerMappingsList : List (String × String) := [
  ("matricule", "external_id"),
  ("identifiant", "external_id"),
  ("id_fr", "external_id"),
  ("nom", "last_name"),
  ("prenom", "first_name"),
  ("nom et prenom", "name"),
  ("nom_et_prenom", "name"),
  ("datedenaissance", "birth_date"),
  ("date de naissance", "birth_date"),
  ("date_de_naissance", "birth_date"),
  ("courriel", "email"),
  ("adresse courriel", "email"),
  ("adresse_courriel", "email"),
  ("telephone", "phone"),
  ("numero de telephone", "phone"),
  ("numero_de_telephone", "phone"),
  ("adresse", "address"),
  ("ville", "city"),
  ("etat", "state"),
  ("code_postal", "zip"),
  ("pays", "country"),
  ("entreprise", "company"),
  ("titre", "job_title"),
  ("departement", "department"),
  ("status_fr", "status"),
  ("statut", "status"),
  ("id", "external_id"),
  ("identifier", "external_id"),
  ("name", "name"),
  ("full name", "name"),
  ("fullname", "name"),
  ("full_name", "name"),
  ("first name", "first_name"),
  ("first_name", "first_name"),
  ("firstname", "first_name"),
  ("last name", "last_name"),
  ("last_name", "last_name"),
  ("lastname", "last_name"),
  ("email", "email"),
  ("email address", "email"),
  ("email_address", "email"),
  ("phone", "phone"),
  ("phone number", "phone"),
  ("phone_number", "phone"),
  ("address", "address"),
  ("city", "city"),
  ("state", "state"),
  ("zip", "zip"),
  ("zip code", "zip"),
  ("zip_code", "zip"),
  ("postal code", "zip"),
  ("postal_code", "zip"),
  ("country", "country"),
  ("company", "company"),
  ("job title", "job_title"),
  ("job_title", "job_title"),
  ("department", "department"),
  ("birth date", "birth_date"),
  ("birth_date", "birth_date"),
  ("date of birth", "birth_date"),
  ("date_of_birth", "birth_date"),
  ("status", "status"),
  ("ID", "external_id"),
  ("Id", "external_id"),
  ("Name", "name"),
  ("Full Name", "name"),
  ("FullName", "name"),
  ("First Name", "first_name"),
  ("FirstName", "first_name"),
  ("Last Name", "last_name"),
  ("LastName", "last_name"),
  ("Email", "email"),
  ("Email Address", "email"),
  ("Phone", "phone"),
  ("Phone Number", "phone"),
  ("Address", "address"),
  ("City", "city"),
  ("State", "state"),
  ("Zip", "zip"),
  ("Zip Code", "zip"),
  ("Postal Code", "zip"),
  ("Country", "country"),
  ("Company", "company"),
  ("Job Title", "job_title"),
  ("Department", "department"),
  ("Birth Date", "birth_date"),
  ("BirthDate", "birth_date"),
  ("Date of Birth", "birth_date"),
  ("DOB", "birth_date"),
  ("Status", "status"),
  ("идентификатор", "external_id"),
  ("фамилия", "last_name"),
  ("имя", "first_name"),
  ("полное имя", "name"),
  ("полное_имя", "name"),
  ("дата рождения", "birth_date"),
  ("дата_рождения", "birth_date"),
  ("электронная почта", "email"),
  ("электронная_почта", "email"),
  ("телефон", "phone"),
  ("номер телефона", "phone"),
  ("номер_телефона", "phone"),
  ("адрес", "address"),
  ("город", "city"),
  ("область", "state"),
  ("почтовый индекс", "zip"),
  ("почтовый_индекс", "zip"),
  ("страна", "country"),
  ("компания", "company"),
  ("должность", "job_title"),
  ("отдел", "department"),
  ("статус", "status"),
  ("رقم_التعريف", "external_id"),
  ("معرف", "external_id"),
  ("اسم_العائلة", "last_name"),
  ("الاسم_الأول", "first_name"),
  ("الاسم_الكامل", "name"),
  ("تاريخ_الميلاد", "birth_date"),
  ("البريد_الإلكتروني", "email"),
  ("هاتف", "phone"),
  ("رقم_الهاتف", "phone"),
  ("عنوان", "address"),
  ("مدينة", "city"),
  ("ولاية", "state"),
  ("الرمز_البريدي", "zip"),
  ("بلد", "country"),
  ("شركة", "company"),
  ("المسمى_الوظيفي", "job_title"),
  ("قسم", "department"),
  ("الحالة", "status"),
  ("标识符", "external_id"),
  ("姓", "last_name"),
  ("名", "first_name"),
  ("全名", "name"),
  ("出生日期", "birth_date"),
  ("电子邮件", "email"),
  ("电话", "phone"),
  ("电话号码", "phone"),
  ("地址", "address"),
  ("城市", "city"),
  ("州", "state"),
  ("邮政编码", "zip"),
  ("国家", "country"),
  ("公司", "company"),
  ("职位", "job_title"),
  ("部门", "department"),
  ("状态", "status")]

/-- The object lookup `HEADER_MAPPINGS[h]` (all values are truthy strings). -/
def headerLookup (h : String) : Option String := jsGet headerMappingsList h

/-- The header normalizer `mapHeader` of src/excel-parser.js: exact match,
then lowercase match, then lowercase with whitespace runs replaced by
underscores, else that normalized string itself. -/
def mapHeader (header : String) : String :=
  match headerLookup header with
  | some v => v
  | none =>
    let lowerHeader := jsToLower header
    match headerLookup lowerHeader with
    | some v => v
    | none =>
      let normalizedHeader := replaceWsRuns lowerHeader
      match headerLookup normalizedHeader with
      | some v => v
      | none => normalizedHeader

/-- A spreadsheet cell: `none` is an undefined/missing cell, otherwise the
stringified value. -/
abbrev Cell := Option String

/-- Build one shaped record from a data row (the `.map(row => ...)` body of
`parseExcel`): zip mapped headers to stringified cells, derive `name` from
`first_name`/`last_name` when absent, then the French-format recomputation
keyed on the mapped-header flags. -/
def shapeRow (mappedHeaders : List String) (hasName hasFirstName hasLastName : Bool)
    (row : List Cell) : Record :=
  let person := mappedHeaders.enum.foldl
    (fun acc iv =>
      if iv.1 < row.length ∧ iv.2 ≠ "" then
        jsSet acc iv.2 ((row.getD iv.1 none).getD "")
      else acc) []
  let person :=
    if !truthy (jsGet person "name") && truthy (jsGet person "first_name")
        && truthy (jsGet person "last_name") then
      jsSet person "name"
        (jsTrim ((jsGet person "last_name").getD "" ++ " " ++
          (jsGet person "first_name").getD ""))
    else person
  if !hasName && hasFirstName && hasLastName then
    let lastNameIndex := mappedHeaders.indexOf "last_name"
    let firstNameIndex := mappedHeaders.indexOf "first_name"
    if lastNameIndex < row.length ∧ firstNameIndex < row.length then
      jsSet person "name"
        (jsTrim ((row.getD lastNameIndex none).getD "" ++ " " ++
          (row.getD firstNameIndex none).getD ""))
    else person
  else person

/-- The row filter of `parseExcel`: keep rows with some defined, non-null,
non-empty cell. -/
def rowNonBlank (row : List Cell) : Bool :=
  decide (row.length > 0) && row.any (fun c => match c with
    | some s => s != ""
    | none => false)

/-- The mapped header names computed by `parseExcel` from the first raw row. -/
def mappedHeadersOf (rawData : List (List Cell)) : List String :=
  ((rawData.headD []).map (fun c => jsTrim (c.getD ""))).map mapHeader

/-- Whether the mapped headers allow identifying a person: one of `name`,
`first_name` AND `last_name`, `email`, `external_id`. -/
def identifiableHeaders (mappedHeaders : List String) : Bool :=
  mappedHeaders.contains "name" ||
  (mappedHeaders.contains "first_name" && mappedHeaders.contains "last_name") ||
  mappedHeaders.contains "email" ||
  mappedHeaders.contains "external_id"

/-- The record-shaping portion of `parseExcel` (src/excel-parser.js lines
211-303), over the reader's row-major cell grid: row-count check, header
mapping, viability check, then shaping of the filtered data rows. The
missing-standard-headers check of the source only logs a warning and is
behaviourally inert. -/
def parseExcelShape (rawData : List (List Cell)) : Except String (List Record) :=
  if rawData.length < 2 then
    .error "Excel file does not contain enough data. Expected at least a header row and one data row."
  else
    let mappedHeaders := mappedHeadersOf rawData
    let hasName := mappedHeaders.contains "name"
    let hasFirstName := mappedHeaders.contains "first_name"
    let hasLastName := mappedHeaders.contains "last_name"
    if !identifiableHeaders mappedHeaders then
      .error "Excel file does not contain enough information to identify people."
    else
      .ok ((rawData.tail.filter rowNonBlank).map
        (shapeRow mappedHeaders hasName hasFirstName hasLastName))

/-- The `fieldMappings` alias table of `normalizePersonFields`
(src/database.js), in source order. -/
def fieldMappingsList : List (String × String) := [
  ("id", "external_id"),
  ("ID", "external_id"),
  ("identifier", "external_id"),
  ("Identifier", "external_id"),
  ("External ID", "external_id"),
  ("External Id", "external_id"),
  ("EXTERNAL_ID", "external_id"),
  ("Name", "name"),
  ("NAME", "name"),
  ("First Name", "first_name"),
  ("FirstName", "first_name"),
  ("firstname", "first_name"),
  ("firstName", "first_name"),
  ("FIRST_NAME", "first_name"),
  ("prenom", "first_name"),
  ("Last Name", "last_name"),
  ("LastName", "last_name"),
  ("lastname", "last_name"),
  ("lastName", "last_name"),
  ("LAST_NAME", "last_name"),
  ("nom", "last_name"),
  ("Birth Date", "birth_date"),
  ("BirthDate", "birth_date"),
  ("birthdate", "birth_date"),
  ("birthDate", "birth_date"),
  ("BIRTH_DATE", "birth_date"),
  ("date_of_birth", "birth_date"),
  ("Date of Birth", "birth_date"),
  ("DOB", "birth_date"),
  ("Status", "status"),
  ("STATUS", "status"),
  ("statut", "status")]

/-- The object lookup `fieldMappings[k]` (all values are truthy strings). -/
def fieldMappings (k : String) : Option String := jsGet fieldMappingsList k

/-- The key-renaming pass of `normalizePersonFields`: iterate the entries of
the original object, writing each aliased key's value under its canonical
name in the accumulating copy and deleting the alias. -/
def applyFieldMappings : Record → Record → Record
  | [], acc => acc
  | (k, v) :: rest, acc =>
    match fieldMappings k with
    | some k1 =>
      let acc := jsSet acc k1 v
      let acc := if k ≠ k1 then jsDelete acc k else acc
      applyFieldMappings rest acc
    | none => applyFieldMappings rest acc

/-- First special case of `normalizePersonFields`: when `name` is truthy and
`first_name` or `last_name` is falsy, split the trimmed name on whitespace;
with at least two tokens the first becomes a missing `last_name` and the
rest, joined by single spaces, a missing `first_name`. -/
def deriveNameSplit (r : Record) : Record :=
  if truthy (jsGet r "name") && (!truthy (jsGet r "first_name")
      || !truthy (jsGet r "last_name")) then
    let nameParts := jsSplitWS (jsTrim ((jsGet r "name").getD ""))
    if 2 ≤ nameParts.length then
      let r1 := if !truthy (jsGet r "last_name") then
        jsSet r "last_name" (nameParts.headD "") else r
      if !truthy (jsGet r1 "first_name") then
        jsSet r1 "first_name" (jsJoinSpace nameParts.tail) else r1
    else r
  else r

/-- Second special case of `normalizePersonFields`: when `name` is falsy and
both `first_name` and `last_name` are truthy, derive
`name = "{last_name} {first_name}".trim()`. -/
def deriveNameConcat (r : Record) : Record :=
  if !truthy (jsGet r "name") && truthy (jsGet r "first_name")
      && truthy (jsGet r "last_name") then
    jsSet r "name"
      (jsTrim ((jsGet r "last_name").getD "" ++ " " ++
        (jsGet r "first_name").getD ""))
  else r

/-- The persistence-time field normalizer `normalizePersonFields` of
src/database.js: alias renaming over a copy, then the two name-derivation
special cases. -/
def normalizePersonFields (person : Record) : Record :=
  deriveNameConcat (deriveNameSplit (applyFieldMappings person person))

/-- The canonical person field names (glossary of the spec). -/
def canonicalFields : List String :=
  ["external_id", "first_name", "last_name", "name", "birth_date", "status"]

/-- The adapters' minimum-identifying-information test: the record is kept
when `birth_date`, `external_id`, or both of `first_name` and `last_name`
are truthy (the source skips on the negation). -/
def eligible (p : Record) : Bool :=
  truthy (jsGet p "birth_date") || truthy (jsGet p "external_id") ||
  (truthy (jsGet p "first_name") && truthy (jsGet p "last_name"))

/-- Result object of an adapter `saveToDatabase` call; `errors = none`
models a result object carrying no `errors` field at all. -/
structure SaveResult where
  inserted : Nat
  errors : Option Nat
deriving DecidableEq, Repr

/-- Connection-level events of one SQLite `saveToDatabase` call. -/
inductive DbEvent where
  | begin
  | insertAttempt (p : Record)
  | commit
  | rollback
deriving DecidableEq, Repr

/-- The per-record `forEach` of the SQLite adapter (equally the per-record
body of the MySQL batches): skip ineligible records, otherwise ask the
engine oracle `f` and count an insert or an error. -/
def insertLoop (f : Record → Bool) : List Record → Nat → Nat → Nat × Nat
  | [], ins, errs => (ins, errs)
  | p :: rest, ins, errs =>
    if eligible p then
      if f p then insertLoop f rest (ins + 1) errs
      else insertLoop f rest ins (errs + 1)
    else insertLoop f rest ins errs

/-- The insert attempts issued by the loop, in order. -/
def attemptEvents : List Record → List DbEvent
  | [] => []
  | p :: rest =>
    if eligible p then .insertAttempt p :: attemptEvents rest
    else attemptEvents rest

/-- Counts of the SQLite adapter's `saveToDatabase` on the commit-success
path: an empty batch resolves `{inserted: 0}` with no `errors` field,
otherwise the per-record loop runs and both counts are returned. -/
def sqliteSaveResult (f : Record → Bool) (people : List Record) : SaveResult :=
  if people.isEmpty then ⟨0, none⟩
  else
    let counts := insertLoop f people 0 0
    ⟨counts.1, some counts.2⟩

/-- The SQLite adapter's `saveToDatabase` with its transaction events: an
empty batch resolves without touching the connection; otherwise BEGIN, one
insert attempt per eligible record, then a single COMMIT; a commit fault
rolls back and rejects, and is the only top-level failure. -/
def sqliteSave (commitOk : Bool) (f : Record → Bool) (people : List Record) :
    Except String SaveResult × List DbEvent :=
  if people.isEmpty then (.ok ⟨0, none⟩, [])
  else
    let events := DbEvent.begin :: (attemptEvents people ++ [DbEvent.commit])
    if commitOk then (.ok (sqliteSaveResult f people), events)
    else (.error "Failed to commit transaction", events ++ [DbEvent.rollback])

/-- Fuel-indexed worker for `chunkBatches`; with a positive slice size, fuel
equal to the list length always suffices. -/
def chunkBatchesAux (batchSize : Nat) : Nat → List Record → List (List Record)
  | 0, _ => []
  | _, [] => []
  | fuel + 1, l => l.take batchSize :: chunkBatchesAux batchSize fuel (l.drop batchSize)

/-- Batching `for (let i = 0; i < people.length; i += batchSize)` into
consecutive slices (the adapters use `batchSize = 100`, the orchestrator its
chunk size; a zero size, which would loop forever in the source, is cut off
by the fuel and never arises in the theorems below). -/
def chunkBatches (batchSize : Nat) (l : List Record) : List (List Record) :=
  chunkBatchesAux batchSize l.length l

/-- Per-batch counting of the MySQL adapter (`Promise.all` over a batch
only overlaps latency; the counters aggregate every outcome). -/
def batchLoop (f : Record → Bool) : List (List Record) → Nat → Nat → Nat × Nat
  | [], ins, errs => (ins, errs)
  | b :: rest, ins, errs =>
    let counts := insertLoop f b ins errs
    batchLoop f rest counts.1 counts.2

/-- The MySQL adapter's `saveToDatabase`: empty batch short-circuits with
`{inserted: 0}`; otherwise sub-batches of 100 are processed in order inside
one transaction and a commit fault is the only top-level failure. -/
def mysqlSave (commitOk : Bool) (f : Record → Bool) (people : List Record) :
    Except String SaveResult :=
  if people.isEmpty then .ok ⟨0, none⟩
  else
    let counts := batchLoop f (chunkBatches 100 people) 0 0
    if commitOk then .ok ⟨counts.1, some counts.2⟩
    else .error "Failed to save to MySQL database"

/-- The `saveToDatabase` wrapper of src/database.js: normalize every
record's field names, then hand the batch to the adapter (SQLite shown;
the engine outcome oracle is `f`). -/
def registrySave (f : Record → Bool) (people : List Record) : SaveResult :=
  sqliteSaveResult f (people.map normalizePersonFields)

/-- The JavaScript `+=` on the running error total: adding a number keeps a
number, while an `undefined` operand poisons the total (NaN), modelled as
`none`. -/
def jsAddOpt : Option Nat → Option Nat → Option Nat
  | some a, some b => some (a + b)
  | _, _ => none

/-- The count-aggregation core of `processExcelFile` (src/index.js lines
137-172): one `saveToDatabase` call when the shaped list fits in a chunk
(its `errors` field is passed through as-is), otherwise per-chunk saves
with running totals. -/
def processCounts (f : Record → Bool) (chunkSize : Nat) (people : List Record) :
    Nat × Option Nat :=
  if people.length ≤ chunkSize then
    let r := registrySave f people
    (r.inserted, r.errors)
  else
    (chunkBatches chunkSize people).foldl
      (fun acc chunk =>
        let r := registrySave f chunk
        (acc.1 + r.inserted, jsAddOpt acc.2 r.errors))
      (0, some 0)

/-- The connection registry of src/database.js: cached connections keyed by
identifier, a counter supplying fresh connection-object identities, and the
number of adapter `initializeDatabase` invocations so far. -/
structure Registry where
  entries : List (String × Nat)
  nextHandle : Nat
  initCount : Nat
deriving DecidableEq, Repr

/-- `getConnection`: return the cached connection for the identifier if one
exists; otherwise initialize a fresh connection, cache it, and return it. -/
def getConnection (reg : Registry) (connectionId : String) : Nat × Registry :=
  match jsGet reg.entries connectionId with
  | some c => (c, reg)
  | none =>
    (reg.nextHandle,
      { entries := jsSet reg.entries connectionId reg.nextHandle,
        nextHandle := reg.nextHandle + 1,
        initCount := reg.initCount + 1 })

/-- `closeConnection`: when the identifier is cached, close the connection
and remove the entry; otherwise do nothing. -/
def closeConnection (reg : Registry) (connectionId : String) : Registry :=
  if (jsGet reg.entries connectionId).isSome then
    { reg with entries := jsDelete reg.entries connectionId }
  else reg

/-! ### Association-list lemmas -/

theorem jsGet_jsSet_self {α : Type} (r : List (String × α)) (k : String) (v : α) :
    jsGet (jsSet r k v) k = some v := by
  induction r with
  | nil => simp [jsSet, jsGet]
  | cons hd tl ih =>
    obtain ⟨k1, v1⟩ := hd
    by_cases h : k1 = k
    · simp [jsSet, h, jsGet]
    · simp [jsSet, h, jsGet, ih]

theorem jsGet_jsSet_ne {α : Type} (r : List (String × α)) (k k2 : String) (v : α)
    (h : k2 ≠ k) : jsGet (jsSet r k v) k2 = jsGet r k2 := by
  induction r with
  | nil => simp [jsSet, jsGet, Ne.symm h]
  | cons hd tl ih =>
    obtain ⟨k1, v1⟩ := hd
    by_cases h1 : k1 = k
    · subst h1
      simp [jsSet, jsGet, Ne.symm h]
    · by_cases h2 : k1 = k2 <;> simp [jsSet, jsGet, h1, h2, ih, h]

theorem jsSet_same {α : Type} (r : List (String × α)) (k : String) (v : α)
    (h : jsGet r k = some v) : jsSet r k v = r := by
  induction r with
  | nil => simp [jsGet] at h
  | cons hd tl ih =>
    obtain ⟨k1, v1⟩ := hd
    by_cases h1 : k1 = k
    · subst h1
      simp [jsGet] at h
      simp [jsSet, h]
    · simp [jsGet, h1] at h
      simp [jsSet, h1, ih h]

theorem jsGet_jsDelete_self {α : Type} (r : List (String × α)) (k : String) :
    jsGet (jsDelete r k) k = none := by
  induction r with
  | nil => simp [jsDelete, jsGet]
  | cons hd tl ih =>
    obtain ⟨k1, v1⟩ := hd
    by_cases h : k1 = k <;> simp [jsDelete, jsGet, h, ih]

theorem jsGet_jsDelete_ne {α : Type} (r : List (String × α)) (k k2 : String)
    (h : k2 ≠ k) : jsGet (jsDelete r k) k2 = jsGet r k2 := by
  induction r with
  | nil => simp [jsDelete]
  | cons hd tl ih =>
    obtain ⟨k1, v1⟩ := hd
    by_cases h1 : k1 = k
    · subst h1
      simp [jsDelete, jsGet, Ne.symm h, ih]
    · by_cases h2 : k1 = k2 <;> simp [jsDelete, jsGet, h1, h2, ih, h]

/-- A key present after a write was present before, or is the written key. -/
theorem present_jsSet {α : Type} (r : List (String × α)) (k k2 : String) (v : α)
    (h : (jsGet (jsSet r k v) k2).isSome = true) :
    (jsGet r k2).isSome = true ∨ k2 = k := by
  by_cases h2 : k2 = k
  · exact Or.inr h2
  · rw [jsGet_jsSet_ne r k k2 v h2] at h
    exact Or.inl h

/-- A key present after a delete was present before and differs from the
deleted key. -/
theorem present_jsDelete {α : Type} (r : List (String × α)) (k k2 : String)
    (h : (jsGet (jsDelete r k) k2).isSome = true) :
    (jsGet r k2).isSome = true ∧ k2 ≠ k := by
  by_cases h2 : k2 = k
  · subst h2
    rw [jsGet_jsDelete_self] at h
    simp at h
  · rw [jsGet_jsDelete_ne r k k2 h2] at h
    exact ⟨h, h2⟩

theorem mem_of_jsGet {α : Type} (r : List (String × α)) (k : String) (v : α)
    (h : jsGet r k = some v) : (k, v) ∈ r := by
  induction r with
  | nil => simp [jsGet] at h
  | cons hd tl ih =>
    obtain ⟨k1, v1⟩ := hd
    by_cases h1 : k1 = k
    · subst h1
      simp [jsGet] at h
      simp [h]
    · simp [jsGet, h1] at h
      simp [ih h]

theorem present_of_mem {α : Type} (r : List (String × α)) (k : String) (v : α)
    (h : (k, v) ∈ r) : (jsGet r k).isSome = true := by
  induction r with
  | nil => simp at h
  | cons hd tl ih =>
    obtain ⟨k1, v1⟩ := hd
    by_cases h1 : k1 = k
    · simp [jsGet, h1]
    · simp at h
      rcases h with h | h
      · exact absurd h.1.symm h1
      · simp [jsGet, h1, ih h]

/-! ### Token lemmas for the whitespace splitter and joiner -/

theorem wsTokens_ne_empty : ∀ (cs cur : List Char), ∀ t ∈ wsTokens cs cur, t ≠ "" := by
  intro cs
  induction cs with
  | nil =>
    intro cur t ht
    by_cases h : cur.isEmpty
    · simp [wsTokens, h] at ht
    · simp [wsTokens, h] at ht
      subst ht
      intro h2
      have h3 : cur.reverse = [] := by
        have := congrArg String.data h2
        simpa using this
      simp at h3
      simp [h3] at h
  | cons c rest ih =>
    intro cur t ht
    by_cases hw : c.isWhitespace
    · by_cases h : cur.isEmpty
      · simp [wsTokens, hw, h] at ht
        exact ih [] t ht
      · simp [wsTokens, hw, h] at ht
        rcases ht with ht | ht
        · subst ht
          intro h2
          have h3 : cur.reverse = [] := by
            have := congrArg String.data h2
            simpa using this
          simp at h3
          simp [h3] at h
        · exact ih [] t ht
    · simp [wsTokens, hw] at ht
      exact ih (c :: cur) t ht

theorem jsSplitWS_ne_empty (s : String) (hs : s ≠ "") :
    ∀ t ∈ jsSplitWS s, t ≠ "" := by
  intro t ht
  rw [jsSplitWS, if_neg hs] at ht
  exact wsTokens_ne_empty s.data [] t ht

theorem headD_mem {α : Type} (l : List α) (d : α) (h : l ≠ []) : l.headD d ∈ l := by
  cases l with
  | nil => exact absurd rfl h
  | cons a rest => simp

theorem jsJoinSpace_ne_empty (a : String) (rest : List String) (ha : a ≠ "") :
    jsJoinSpace (a :: rest) ≠ "" := by
  cases rest with
  | nil => simpa [jsJoinSpace] using ha
  | cons b t =>
    intro h
    have he : jsJoinSpace (a :: b :: t) = a ++ " " ++ jsJoinSpace (b :: t) := rfl
    rw [he] at h
    have h2 := congrArg String.length h
    rw [String.length_append, String.length_append] at h2
    have h3 : (" " : String).length = 1 := rfl
    have h4 : ("" : String).length = 0 := rfl
    rw [h3, h4] at h2
    omega

/-- For a string whose split has at least two tokens, the string is
non-empty (the empty string splits to the single token list containing only
the empty string). -/
theorem jsSplitWS_two_ne (s : String) (h : 2 ≤ (jsSplitWS s).length) : s ≠ "" := by
  intro hs
  rw [jsSplitWS, if_pos hs] at h
  simp at h

/-! ### The alias table and the renaming pass -/

/-- Entries of the alias table never map a key to itself, and no alias value
is itself an alias key. -/
theorem fieldMappings_entries :
    ∀ p ∈ fieldMappingsList, p.1 ≠ p.2 ∧ fieldMappings p.2 = none := by decide

/-- No canonical field name is an alias key. -/
theorem canonicalFields_not_aliased :
    ∀ k ∈ canonicalFields, fieldMappings k = none := by decide

theorem fieldMappings_ne (k k1 : String) (h : fieldMappings k = some k1) : k ≠ k1 :=
  (fieldMappings_entries (k, k1) (mem_of_jsGet _ _ _ h)).1

theorem fieldMappings_val_none (k k1 : String) (h : fieldMappings k = some k1) :
    fieldMappings k1 = none :=
  (fieldMappings_entries (k, k1) (mem_of_jsGet _ _ _ h)).2

/-- When no iterated entry is an alias, the renaming pass is the identity on
the accumulator. -/
theorem applyFieldMappings_id : ∀ (es acc : Record),
    (∀ p ∈ es, fieldMappings p.1 = none) → applyFieldMappings es acc = acc := by
  intro es
  induction es with
  | nil => intro acc _; rfl
  | cons p rest ih =>
    intro acc h
    obtain ⟨k, v⟩ := p
    have hk : fieldMappings k = none := h (k, v) (by simp)
    simp only [applyFieldMappings, hk]
    exact ih acc (fun q hq => h q (by simp [hq]))

/-- Invariant of the renaming pass: if every alias key present in the
accumulator still occurs among the remaining iterated entries, then no alias
key is present in the final object. -/
theorem applyFieldMappings_df : ∀ (es acc : Record),
    (∀ k, (jsGet acc k).isSome = true → (fieldMappings k).isSome = true →
      (jsGet es k).isSome = true) →
    ∀ k, (jsGet (applyFieldMappings es acc) k).isSome = true →
      fieldMappings k = none := by
  intro es
  induction es with
  | nil =>
    intro acc h k hk
    cases hm : fieldMappings k with
    | none => rfl
    | some k1 =>
      have h2 := h k hk (by simp [hm])
      simp [jsGet] at h2
  | cons p rest ih =>
    intro acc h k hk
    obtain ⟨k0, v0⟩ := p
    cases hm : fieldMappings k0 with
    | none =>
      simp only [applyFieldMappings, hm] at hk
      refine ih acc ?_ k hk
      intro k2 h2 h3
      have h4 := h k2 h2 h3
      by_cases h5 : k0 = k2
      · subst h5
        rw [hm] at h3
        simp at h3
      · simpa [jsGet, h5] using h4
    | some k1 =>
      have hne : k0 ≠ k1 := fieldMappings_ne k0 k1 hm
      simp only [applyFieldMappings, hm, if_pos hne] at hk
      refine ih (jsDelete (jsSet acc k1 v0) k0) ?_ k hk
      intro k2 h2 h3
      obtain ⟨h4, h5⟩ := present_jsDelete _ _ _ h2
      rcases present_jsSet _ _ _ _ h4 with h6 | h6
      · have h7 := h k2 h6 h3
        simpa [jsGet, Ne.symm h5] using h7
      · subst h6
        rw [fieldMappings_val_none k0 k2 hm] at h3
        simp at h3

/-- No alias key is present after the renaming pass of
`normalizePersonFields`. -/
theorem applyFieldMappings_self_df (r : Record) :
    ∀ k, (jsGet (applyFieldMappings r r) k).isSome = true → fieldMappings k = none :=
  applyFieldMappings_df r r (fun _ h _ => h)

/-! ### Stability of the two name-derivation passes -/

/-- The split pass does nothing when both name components are truthy. -/
theorem deriveNameSplit_noop (r : Record)
    (h1 : truthy (jsGet r "first_name") = true)
    (h2 : truthy (jsGet r "last_name") = true) : deriveNameSplit r = r := by
  unfold deriveNameSplit
  simp [h1, h2]

/-- The concat pass does nothing when `name` is truthy. -/
theorem deriveNameConcat_noop (r : Record)
    (h : truthy (jsGet r "name") = true) : deriveNameConcat r = r := by
  unfold deriveNameConcat
  simp [h]

/-- Outcome of the split pass: either it leaves the record unchanged, or the
result keeps `name` intact and has truthy `first_name` and `last_name`. -/
theorem deriveNameSplit_result (r : Record) :
    deriveNameSplit r = r ∨
    (jsGet (deriveNameSplit r) "name" = jsGet r "name" ∧
     truthy (jsGet (deriveNameSplit r) "first_name") = true ∧
     truthy (jsGet (deriveNameSplit r) "last_name") = true) := by
  by_cases h1 : truthy (jsGet r "name") = true
  case neg =>
    left
    unfold deriveNameSplit
    simp [h1]
  case pos =>
  by_cases h2 : truthy (jsGet r "first_name") = true ∧ truthy (jsGet r "last_name") = true
  case pos =>
    exact Or.inl (deriveNameSplit_noop r h2.1 h2.2)
  case neg =>
  have hc : (truthy (jsGet r "name") && (!truthy (jsGet r "first_name")
      || !truthy (jsGet r "last_name"))) = true := by
    rcases not_and_or.mp h2 with h | h <;> simp [h1, h]
  by_cases h3 : 2 ≤ (jsSplitWS (jsTrim ((jsGet r "name").getD ""))).length
  case neg =>
    left
    unfold deriveNameSplit
    simp only [hc, if_true]
    rw [if_neg h3]
  case pos =>
  right
  have hsne : jsTrim ((jsGet r "name").getD "") ≠ "" :=
    jsSplitWS_two_ne _ h3
  have hpne : jsSplitWS (jsTrim ((jsGet r "name").getD "")) ≠ [] := by
    intro h0
    rw [h0] at h3
    simp at h3
  have hhead : (jsSplitWS (jsTrim ((jsGet r "name").getD ""))).headD "" ≠ "" :=
    jsSplitWS_ne_empty _ hsne _ (headD_mem _ _ hpne)
  have htne : (jsSplitWS (jsTrim ((jsGet r "name").getD ""))).tail ≠ [] := by
    intro h0
    have h4 := congrArg List.length h0
    simp [List.length_tail] at h4
    omega
  have hjoin : jsJoinSpace (jsSplitWS (jsTrim ((jsGet r "name").getD ""))).tail ≠ "" := by
    cases hpt : (jsSplitWS (jsTrim ((jsGet r "name").getD ""))).tail with
    | nil => exact absurd hpt htne
    | cons a ts =>
      refine jsJoinSpace_ne_empty a ts ?_
      refine jsSplitWS_ne_empty _ hsne a ?_
      have ha : a ∈ (jsSplitWS (jsTrim ((jsGet r "name").getD ""))).tail := by
        simp [hpt]
      exact List.tail_subset _ ha
  unfold deriveNameSplit
  simp only [hc, if_true, if_pos h3]
  by_cases h4 : truthy (jsGet r "last_name") = true
  · simp only [h4, Bool.not_true, Bool.false_eq_true, if_false]
    by_cases h5 : truthy (jsGet r "first_name") = true
    · exact absurd ⟨h5, h4⟩ h2
    · simp only [Bool.not_eq_true] at h5
      simp only [h5, Bool.not_false, if_true]
      refine ⟨?_, ?_, ?_⟩
      · exact jsGet_jsSet_ne r "first_name" "name" _ (by decide)
      · rw [jsGet_jsSet_self]
        simpa [truthy] using hjoin
      · rw [jsGet_jsSet_ne r "first_name" "last_name" _ (by decide)]
        exact h4
  · simp only [Bool.not_eq_true] at h4
    simp only [h4, Bool.not_false, if_true]
    have hf1 : jsGet (jsSet r "last_name"
        ((jsSplitWS (jsTrim ((jsGet r "name").getD ""))).headD "")) "first_name" =
        jsGet r "first_name" :=
      jsGet_jsSet_ne r "last_name" "first_name" _ (by decide)
    by_cases h5 : truthy (jsGet r "first_name") = true
    · simp only [hf1, h5, Bool.not_true, Bool.false_eq_true, if_false]
      refine ⟨?_, ?_, ?_⟩
      · exact jsGet_jsSet_ne r "last_name" "name" _ (by decide)
      · trivial
      · rw [jsGet_jsSet_self]
        simpa [truthy] using hhead
    · simp only [Bool.not_eq_true] at h5
      simp only [hf1, h5, Bool.not_false, if_true]
      refine ⟨?_, ?_, ?_⟩
      · rw [jsGet_jsSet_ne _ "first_name" "name" _ (by decide)]
        exact jsGet_jsSet_ne r "last_name" "name" _ (by decide)
      · rw [jsGet_jsSet_self]
        simpa [truthy] using hjoin
      · rw [jsGet_jsSet_ne _ "first_name" "last_name" _ (by decide), jsGet_jsSet_self]
        simpa [truthy] using hhead

/-- The split pass is idempotent. -/
theorem deriveNameSplit_idem (r : Record) :
    deriveNameSplit (deriveNameSplit r) = deriveNameSplit r := by
  rcases deriveNameSplit_result r with h | h
  · rw [h, h]
  · exact deriveNameSplit_noop _ h.2.1 h.2.2

/-- Closed form of the concat pass when its condition holds. -/
theorem deriveNameConcat_pos (x : Record)
    (hx : (!truthy (jsGet x "name") && truthy (jsGet x "first_name")
      && truthy (jsGet x "last_name")) = true) :
    deriveNameConcat x = jsSet x "name"
      (jsTrim ((jsGet x "last_name").getD "" ++ " " ++
        (jsGet x "first_name").getD "")) := by
  unfold deriveNameConcat
  rw [if_pos hx]

/-- Closed form of the concat pass when its condition fails. -/
theorem deriveNameConcat_neg (x : Record)
    (hx : ¬ (!truthy (jsGet x "name") && truthy (jsGet x "first_name")
      && truthy (jsGet x "last_name")) = true) :
    deriveNameConcat x = x := by
  unfold deriveNameConcat
  rw [if_neg hx]

/-- The concat pass is idempotent. -/
theorem deriveNameConcat_idem (r : Record) :
    deriveNameConcat (deriveNameConcat r) = deriveNameConcat r := by
  by_cases hc : (!truthy (jsGet r "name") && truthy (jsGet r "first_name")
      && truthy (jsGet r "last_name")) = true
  case neg =>
    have h0 := deriveNameConcat_neg r hc
    rw [h0, h0]
  case pos =>
    have h0 := deriveNameConcat_pos r hc
    by_cases hs : jsTrim ((jsGet r "last_name").getD "" ++ " " ++
        (jsGet r "first_name").getD "") = ""
    case neg =>
      refine deriveNameConcat_noop _ ?_
      rw [h0, jsGet_jsSet_self]
      simpa [truthy] using hs
    case pos =>
      simp only [Bool.and_eq_true] at hc
      have hname : jsGet (deriveNameConcat r) "name" = some "" := by
        rw [h0, hs, jsGet_jsSet_self]
      have hf2 : jsGet (deriveNameConcat r) "first_name" = jsGet r "first_name" := by
        rw [h0]
        exact jsGet_jsSet_ne r "name" "first_name" _ (by decide)
      have hl2 : jsGet (deriveNameConcat r) "last_name" = jsGet r "last_name" := by
        rw [h0]
        exact jsGet_jsSet_ne r "name" "last_name" _ (by decide)
      have hc2 : (!truthy (jsGet (deriveNameConcat r) "name")
          && truthy (jsGet (deriveNameConcat r) "first_name")
          && truthy (jsGet (deriveNameConcat r) "last_name")) = true := by
        rw [hname, hf2, hl2]
        simp only [hc.1.2, hc.2]
        rfl
      rw [deriveNameConcat_pos _ hc2, hf2, hl2, hs]
      exact jsSet_same _ _ _ hname

/-- A split-stable record stays split-stable through the concat pass. -/
theorem deriveNameSplit_deriveNameConcat (r : Record)
    (h : deriveNameSplit r = r) :
    deriveNameSplit (deriveNameConcat r) = deriveNameConcat r := by
  by_cases hc : (!truthy (jsGet r "name") && truthy (jsGet r "first_name")
      && truthy (jsGet r "last_name")) = true
  case neg =>
    have h0 : deriveNameConcat r = r := by
      unfold deriveNameConcat
      rw [if_neg hc]
    rw [h0]
    exact h
  case pos =>
    have h0 : deriveNameConcat r =
        jsSet r "name" (jsTrim ((jsGet r "last_name").getD "" ++ " " ++
          (jsGet r "first_name").getD "")) := by
      unfold deriveNameConcat
      rw [if_pos hc]
    simp only [Bool.and_eq_true] at hc
    refine deriveNameSplit_noop _ ?_ ?_
    · rw [h0, jsGet_jsSet_ne r "name" "first_name" _ (by decide)]
      exact hc.1.2
    · rw [h0, jsGet_jsSet_ne r "name" "last_name" _ (by decide)]
      exact hc.2

/-- The composition of the two derivation passes is idempotent. -/
theorem derive_idem (r : Record) :
    deriveNameConcat (deriveNameSplit (deriveNameConcat (deriveNameSplit r))) =
      deriveNameConcat (deriveNameSplit r) := by
  rw [deriveNameSplit_deriveNameConcat (deriveNameSplit r) (deriveNameSplit_idem r)]
  exact deriveNameConcat_idem _

/-- The split pass keeps the no-alias-key property. -/
theorem df_deriveNameSplit (r : Record)
    (h : ∀ k, (jsGet r k).isSome = true → fieldMappings k = none) :
    ∀ k, (jsGet (deriveNameSplit r) k).isSome = true → fieldMappings k = none := by
  intro k hk
  unfold deriveNameSplit at hk
  by_cases h1 : (truthy (jsGet r "name") && (!truthy (jsGet r "first_name")
      || !truthy (jsGet r "last_name"))) = true
  case neg =>
    rw [if_neg h1] at hk
    exact h k hk
  case pos =>
    rw [if_pos h1] at hk
    by_cases h2 : 2 ≤ (jsSplitWS (jsTrim ((jsGet r "name").getD ""))).length
    case neg =>
      rw [if_neg h2] at hk
      exact h k hk
    case pos =>
      rw [if_pos h2] at hk
      have step : ∀ (x : Record) (key val : String), key = "last_name" ∨ key = "first_name" →
          (∀ k2, (jsGet x k2).isSome = true → fieldMappings k2 = none) →
          ∀ k2, (jsGet (jsSet x key val) k2).isSome = true → fieldMappings k2 = none := by
        intro x key val hkey hx k2 hk2
        rcases present_jsSet x key k2 val hk2 with h3 | h3
        · exact hx k2 h3
        · subst h3
          rcases hkey with h4 | h4 <;> subst h4 <;> decide
      simp only [] at hk
      split at hk
      · split at hk
        · exact step _ _ _ (Or.inr rfl) (step _ _ _ (Or.inl rfl) h) k hk
        · exact step _ _ _ (Or.inl rfl) h k hk
      · split at hk
        · exact step _ _ _ (Or.inr rfl) h k hk
        · exact h k hk

/-- The concat pass keeps the no-alias-key property. -/
theorem df_deriveNameConcat (r : Record)
    (h : ∀ k, (jsGet r k).isSome = true → fieldMappings k = none) :
    ∀ k, (jsGet (deriveNameConcat r) k).isSome = true → fieldMappings k = none := by
  intro k hk
  unfold deriveNameConcat at hk
  split at hk
  · rcases present_jsSet r "name" k _ hk with h3 | h3
    · exact h k h3
    · subst h3
      decide
  · exact h k hk

/-- No alias key is present in a normalized record. -/
theorem df_normalizePersonFields (r : Record) :
    ∀ k, (jsGet (normalizePersonFields r) k).isSome = true → fieldMappings k = none :=
  df_deriveNameConcat _ (df_deriveNameSplit _ (applyFieldMappings_self_df r))

/-- The renaming pass is the identity on a normalized record. -/
theorem applyFieldMappings_normalized (r : Record) :
    applyFieldMappings (normalizePersonFields r) (normalizePersonFields r) =
      normalizePersonFields r := by
  refine applyFieldMappings_id _ _ ?_
  intro p hp
  exact df_normalizePersonFields r p.1
    (present_of_mem _ p.1 p.2 (by simpa using hp))

/-- Idempotence of `normalizePersonFields`. -/
theorem normalizePersonFields_idem (r : Record) :
    normalizePersonFields (normalizePersonFields r) = normalizePersonFields r := by
  have h1 := applyFieldMappings_normalized r
  unfold normalizePersonFields at h1 ⊢
  rw [h1]
  exact derive_idem (applyFieldMappings r r)

/-! ### Counting lemmas for the adapter save loops -/

theorem insertLoop_eq (f : Record → Bool) : ∀ (l : List Record) (i e : Nat),
    insertLoop f l i e =
      (i + (l.filter (fun p => eligible p && f p)).length,
       e + (l.filter (fun p => eligible p && !f p)).length) := by
  intro l
  induction l with
  | nil => intro i e; simp [insertLoop]
  | cons p rest ih =>
    intro i e
    by_cases h1 : eligible p = true
    · by_cases h2 : f p = true
      · simp only [insertLoop, h1, h2, if_true, ih, List.filter_cons]
        simp [h1, h2]
        omega
      · simp only [Bool.not_eq_true] at h2
        simp only [insertLoop, h1, h2, if_true, Bool.false_eq_true, if_false, ih,
          List.filter_cons]
        simp [h1, h2]
        omega
    · simp only [Bool.not_eq_true] at h1
      simp only [insertLoop, h1, Bool.false_eq_true, if_false, ih, List.filter_cons]
      simp [h1]

theorem attemptEvents_eq : ∀ l : List Record,
    attemptEvents l = (l.filter (fun p => eligible p)).map DbEvent.insertAttempt := by
  intro l
  induction l with
  | nil => rfl
  | cons p rest ih =>
    by_cases h1 : eligible p = true
    · simp [attemptEvents, h1, ih]
    · simp only [Bool.not_eq_true] at h1
      simp [attemptEvents, h1, ih]

theorem length_filter_split (f : Record → Bool) (l : List Record) :
    (l.filter (fun p => eligible p && f p)).length +
      (l.filter (fun p => eligible p && !f p)).length =
      (l.filter (fun p => eligible p)).length := by
  induction l with
  | nil => rfl
  | cons p rest ih =>
    by_cases h1 : eligible p = true
    · by_cases h2 : f p = true
      · simp [List.filter_cons, h1, h2]
        omega
      · simp only [Bool.not_eq_true] at h2
        simp [List.filter_cons, h1, h2]
        omega
    · simp only [Bool.not_eq_true] at h1
      simp [List.filter_cons, h1, ih]

theorem batchLoop_eq (f : Record → Bool) : ∀ (bs : List (List Record)) (i e : Nat),
    batchLoop f bs i e = insertLoop f bs.flatten i e := by
  intro bs
  induction bs with
  | nil => intro i e; simp [batchLoop, insertLoop]
  | cons b rest ih =>
    intro i e
    simp only [batchLoop, ih, List.flatten_cons, insertLoop_eq, List.filter_append,
      List.length_append, Prod.mk.injEq]
    constructor <;> omega

theorem chunkBatchesAux_join (bs : Nat) (hbs : bs ≠ 0) : ∀ (fuel : Nat) (l : List Record),
    l.length ≤ fuel → (chunkBatchesAux bs fuel l).flatten = l := by
  intro fuel
  induction fuel with
  | zero =>
    intro l hl
    have h0 : l = [] := List.eq_nil_of_length_eq_zero (Nat.le_zero.mp hl)
    subst h0
    rfl
  | succ n ih =>
    intro l hl
    cases l with
    | nil => rfl
    | cons x xs =>
      have h1 : (chunkBatchesAux bs (n + 1) (x :: xs)) =
          (x :: xs).take bs :: chunkBatchesAux bs n ((x :: xs).drop bs) := rfl
      rw [h1]
      have h2 : ((x :: xs).drop bs).length ≤ n := by
        simp only [List.length_drop, List.length_cons]
        simp only [List.length_cons] at hl
        omega
      simp only [List.flatten_cons, ih ((x :: xs).drop bs) h2, List.take_append_drop]

theorem chunkBatches_join (bs : Nat) (l : List Record) (hbs : bs ≠ 0) :
    (chunkBatches bs l).flatten = l :=
  chunkBatchesAux_join bs hbs l.length l le_rfl

theorem isEmpty_false_of_ne {α : Type} (l : List α) (h : l ≠ []) : l.isEmpty = false := by
  cases l with
  | nil => exact absurd rfl h
  | cons a rest => rfl

/-- Counts of the SQLite save on a non-empty batch. -/
theorem sqliteSaveResult_counts (f : Record → Bool) (people : List Record)
    (h : people ≠ []) :
    sqliteSaveResult f people =
      ⟨(people.filter (fun p => eligible p && f p)).length,
       some (people.filter (fun p => eligible p && !f p)).length⟩ := by
  unfold sqliteSaveResult
  rw [isEmpty_false_of_ne people h]
  simp [insertLoop_eq]

/-- Counts of the MySQL save on a non-empty batch with successful commit. -/
theorem mysqlSave_counts (f : Record → Bool) (people : List Record)
    (h : people ≠ []) :
    mysqlSave true f people =
      .ok ⟨(people.filter (fun p => eligible p && f p)).length,
           some (people.filter (fun p => eligible p && !f p)).length⟩ := by
  unfold mysqlSave
  rw [isEmpty_false_of_ne people h]
  simp only [Bool.false_eq_true, if_false, batchLoop_eq,
    chunkBatches_join 100 people (by decide), insertLoop_eq]
  simp

/-! ### Pointwise facts about the split pass -/

/-- The first token of a two-or-more-token split is non-empty. -/
theorem splitWS_head_ne (s : String) (h : 2 ≤ (jsSplitWS s).length) :
    (jsSplitWS s).headD "" ≠ "" := by
  have hs : s ≠ "" := jsSplitWS_two_ne s h
  have hp : jsSplitWS s ≠ [] := by
    intro h0
    rw [h0] at h
    simp at h
  exact jsSplitWS_ne_empty s hs _ (headD_mem _ _ hp)

/-- The space-joined tail of a two-or-more-token split is non-empty. -/
theorem splitWS_join_tail_ne (s : String) (h : 2 ≤ (jsSplitWS s).length) :
    jsJoinSpace (jsSplitWS s).tail ≠ "" := by
  have hs : s ≠ "" := jsSplitWS_two_ne s h
  have htne : (jsSplitWS s).tail ≠ [] := by
    intro h0
    have h4 := congrArg List.length h0
    simp [List.length_tail] at h4
    omega
  cases hpt : (jsSplitWS s).tail with
  | nil => exact absurd hpt htne
  | cons a ts =>
    refine jsJoinSpace_ne_empty a ts ?_
    refine jsSplitWS_ne_empty s hs a ?_
    have ha : a ∈ (jsSplitWS s).tail := by simp [hpt]
    exact List.tail_subset _ ha

/-- The split pass does nothing when `name` is falsy. -/
theorem deriveNameSplit_noop_falsy (r : Record)
    (h : truthy (jsGet r "name") = false) : deriveNameSplit r = r := by
  unfold deriveNameSplit
  simp [h]

/-- What the split pass reads and writes, for a record whose `name` is truthy
with a two-or-more-token trimmed split: an absent `last_name` becomes the
first token, an absent `first_name` the joined remaining tokens, and `name`
itself is untouched. -/
theorem deriveNameSplit_facts (r : Record)
    (hn : truthy (jsGet r "name") = true)
    (hlen : 2 ≤ (jsSplitWS (jsTrim ((jsGet r "name").getD ""))).length) :
    (jsGet r "last_name" = none →
      jsGet (deriveNameSplit r) "last_name" =
        some ((jsSplitWS (jsTrim ((jsGet r "name").getD ""))).headD ""))
    ∧ (jsGet r "first_name" = none →
      jsGet (deriveNameSplit r) "first_name" =
        some (jsJoinSpace (jsSplitWS (jsTrim ((jsGet r "name").getD ""))).tail))
    ∧ jsGet (deriveNameSplit r) "name" = jsGet r "name" := by
  by_cases ht : truthy (jsGet r "first_name") = true ∧ truthy (jsGet r "last_name") = true
  case pos =>
    rw [deriveNameSplit_noop r ht.1 ht.2]
    refine ⟨?_, ?_, rfl⟩
    · intro h0
      rw [h0] at ht
      simp [truthy] at ht
    · intro h0
      rw [h0] at ht
      simp [truthy] at ht
  case neg =>
  have hc : (truthy (jsGet r "name") && (!truthy (jsGet r "first_name")
      || !truthy (jsGet r "last_name"))) = true := by
    rcases not_and_or.mp ht with h | h <;> simp [hn, h]
  unfold deriveNameSplit
  simp only [hc, if_true, if_pos hlen]
  by_cases hlx : truthy (jsGet r "last_name") = true
  · simp only [hlx, Bool.not_true, Bool.false_eq_true, if_false]
    by_cases hfx : truthy (jsGet r "first_name") = true
    · exact absurd ⟨hfx, hlx⟩ ht
    · simp only [Bool.not_eq_true] at hfx
      simp only [hfx, Bool.not_false, if_true]
      refine ⟨?_, ?_, ?_⟩
      · intro h0
        rw [h0] at hlx
        simp [truthy] at hlx
      · intro _
        exact jsGet_jsSet_self r "first_name" _
      · exact jsGet_jsSet_ne r "first_name" "name" _ (by decide)
  · simp only [Bool.not_eq_true] at hlx
    simp only [hlx, Bool.not_false, if_true]
    have hf1 : jsGet (jsSet r "last_name"
        ((jsSplitWS (jsTrim ((jsGet r "name").getD ""))).headD "")) "first_name" =
        jsGet r "first_name" :=
      jsGet_jsSet_ne r "last_name" "first_name" _ (by decide)
    by_cases hfx : truthy (jsGet r "first_name") = true
    · simp only [hf1, hfx, Bool.not_true, Bool.false_eq_true, if_false]
      refine ⟨?_, ?_, ?_⟩
      · intro _
        exact jsGet_jsSet_self r "last_name" _
      · intro h0
        rw [h0] at hfx
        simp [truthy] at hfx
      · exact jsGet_jsSet_ne r "last_name" "name" _ (by decide)
    · simp only [Bool.not_eq_true] at hfx
      simp only [hf1, hfx, Bool.not_false, if_true]
      refine ⟨?_, ?_, ?_⟩
      · intro _
        rw [jsGet_jsSet_ne _ "first_name" "last_name" _ (by decide)]
        exact jsGet_jsSet_self r "last_name" _
      · intro _
        exact jsGet_jsSet_self _ "first_name" _
      · rw [jsGet_jsSet_ne _ "first_name" "name" _ (by decide)]
        exact jsGet_jsSet_ne r "last_name" "name" _ (by decide)

end AsinImport

namespace AsinImport

/-! ### Claim theorems -/

/-- C1: for headers `['matricule','nom','prenom','datedenaissance','status']`
and the single data row `['FRSE2X8S','Girard','David','1984-09-21','Inactif']`,
the record shaper yields exactly one record with canonical fields
external_id, last_name, first_name, birth_date, status and the derived
`name = "Girard David"`. -/
theorem c1_french_sample_shape :
    parseExcelShape
      [[some "matricule", some "nom", some "prenom", some "datedenaissance",
        some "status"],
       [some "FRSE2X8S", some "Girard", some "David", some "1984-09-21",
        some "Inactif"]] =
    .ok [[("external_id", "FRSE2X8S"), ("last_name", "Girard"),
          ("first_name", "David"), ("birth_date", "1984-09-21"),
          ("status", "Inactif"), ("name", "Girard David")]] := by rfl

/-- C2 counterexample: `DOB` is a mapped header (canonical `birth_date`),
but its all-lowercase variant `dob` is not itself in the table, so
`mapHeader` returns the fallback `"dob"`, not the canonical name the claim
promises for lowercase variants of mapped headers. -/
theorem c2_counterexample :
    headerLookup "DOB" = some "birth_date" ∧ jsToLower "DOB" = "dob"
    ∧ mapHeader "dob" = "dob" ∧ ("dob" : String) ≠ "birth_date" :=
  ⟨rfl, rfl, rfl, by decide⟩

/-- C2 (amended): `mapHeader` resolves a raw header by exact table match,
then the lowercased form, then the lowercased form with whitespace runs
replaced by underscores, and otherwise returns that normalized string; in
particular every exact-case table entry maps to its canonical name, and a
variant maps to a canonical name exactly when its lowercased or
lowercased-underscored form is itself a table key (not merely the variant
of one). -/
theorem c2_header_lookup_order (hdr v : String) :
    (headerLookup hdr = some v → mapHeader hdr = v)
    ∧ (headerLookup hdr = none → headerLookup (jsToLower hdr) = some v →
        mapHeader hdr = v)
    ∧ (headerLookup hdr = none → headerLookup (jsToLower hdr) = none →
        headerLookup (replaceWsRuns (jsToLower hdr)) = some v → mapHeader hdr = v)
    ∧ (headerLookup hdr = none → headerLookup (jsToLower hdr) = none →
        headerLookup (replaceWsRuns (jsToLower hdr)) = none →
        mapHeader hdr = replaceWsRuns (jsToLower hdr)) := by
  refine ⟨?_, ?_, ?_, ?_⟩ <;> intros <;> simp_all [mapHeader]

/-- C2 witness: one concrete header through each of the four lookup stages. -/
theorem c2_header_lookup_order_witness :
    mapHeader "matricule" = "external_id" ∧ mapHeader "MATRICULE" = "external_id"
    ∧ mapHeader "nom et  prenom" = "name"
    ∧ mapHeader "Unknown Col" = "unknown_col" :=
  ⟨(c2_header_lookup_order "matricule" "external_id").1 (by rfl),
   (c2_header_lookup_order "MATRICULE" "external_id").2.1 (by rfl) (by rfl),
   (c2_header_lookup_order "nom et  prenom" "name").2.2.1 (by rfl) (by rfl) (by rfl),
   ((c2_header_lookup_order "Unknown Col" "unknown_col").2.2.2 (by rfl) (by rfl)
     (by rfl)).trans (by rfl)⟩

/-- C3 counterexample: for the record `{name: "Girard"}` (a present name
with a single whitespace-delimited token and both components absent), the
normalizer derives nothing — `last_name` stays absent, while the claim
requires the first token to become `last_name`. -/
theorem c3_counterexample :
    jsGet ([("name", "Girard")] : Record) "name" = some "Girard"
    ∧ jsGet ([("name", "Girard")] : Record) "last_name" = none
    ∧ normalizePersonFields [("name", "Girard")] = [("name", "Girard")]
    ∧ jsGet (normalizePersonFields [("name", "Girard")]) "last_name" = none :=
  ⟨rfl, rfl, rfl, rfl⟩

/-- C3 (amended): for records none of whose keys are alias spellings, if
`first_name` and `last_name` are present and non-empty and `name` is absent,
the normalized `name` is `"{last_name} {first_name}"` trimmed; and if `name`
is present and its trimmed whitespace split has at least two tokens, an
absent `last_name` becomes the first token and an absent `first_name` the
remaining tokens joined by single spaces (a one-token `name` derives
nothing). -/
theorem c3_reconcile_name_derivations (r : Record)
    (halias : ∀ p ∈ r, fieldMappings p.1 = none) :
    (jsGet r "name" = none → truthy (jsGet r "first_name") = true →
      truthy (jsGet r "last_name") = true →
      jsGet (normalizePersonFields r) "name" =
        some (jsTrim ((jsGet r "last_name").getD "" ++ " " ++
          (jsGet r "first_name").getD "")))
    ∧ (∀ n, jsGet r "name" = some n → 2 ≤ (jsSplitWS (jsTrim n)).length →
      (jsGet r "last_name" = none →
        jsGet (normalizePersonFields r) "last_name" =
          some ((jsSplitWS (jsTrim n)).headD ""))
      ∧ (jsGet r "first_name" = none →
        jsGet (normalizePersonFields r) "first_name" =
          some (jsJoinSpace (jsSplitWS (jsTrim n)).tail))) := by
  have hp1 : applyFieldMappings r r = r := applyFieldMappings_id r r halias
  constructor
  · intro hn hf hl
    have hds : deriveNameSplit r = r :=
      deriveNameSplit_noop_falsy r (by rw [hn]; rfl)
    have hdc := deriveNameConcat_pos r (by rw [hf, hl, hn]; rfl)
    unfold normalizePersonFields
    rw [hp1, hds, hdc]
    exact jsGet_jsSet_self r "name" _
  · intro n hname hlen
    have hn0 : n ≠ "" := by
      intro h0
      subst h0
      rw [show jsTrim "" = "" from rfl] at hlen
      simp [jsSplitWS] at hlen
    have hnt : truthy (jsGet r "name") = true := by
      rw [hname]
      simp [truthy, hn0]
    have hgd : (jsGet r "name").getD "" = n := by rw [hname]; rfl
    have hlen2 : 2 ≤ (jsSplitWS (jsTrim ((jsGet r "name").getD ""))).length := by
      rw [hgd]
      exact hlen
    obtain ⟨fl, ff, fn⟩ := deriveNameSplit_facts r hnt hlen2
    have hnorm : normalizePersonFields r = deriveNameSplit r := by
      unfold normalizePersonFields
      rw [hp1]
      refine deriveNameConcat_noop _ ?_
      rw [fn, hname]
      simp [truthy, hn0]
    constructor
    · intro hl
      have h2 := fl hl
      rw [hgd] at h2
      rw [hnorm]
      exact h2
    · intro hf
      have h2 := ff hf
      rw [hgd] at h2
      rw [hnorm]
      exact h2

/-- C3 witness: concat derivation on a components-only record and split
derivation on a name-only record. -/
theorem c3_reconcile_name_derivations_witness :
    jsGet (normalizePersonFields [("first_name", "David"), ("last_name", "Girard")])
      "name" = some "Girard David"
    ∧ jsGet (normalizePersonFields [("name", "Girard David")]) "last_name" =
        some "Girard"
    ∧ jsGet (normalizePersonFields [("name", "Girard David")]) "first_name" =
        some "David" := by
  have h1 := (c3_reconcile_name_derivations
    [("first_name", "David"), ("last_name", "Girard")] (by decide)).1 rfl
    (by decide) (by decide)
  have h2 := (c3_reconcile_name_derivations [("name", "Girard David")] (by decide)).2
    "Girard David" rfl (by decide)
  exact ⟨h1.trans (by rfl), (h2.1 rfl).trans (by rfl), (h2.2 rfl).trans (by rfl)⟩

/-- Composing the eligibility filter with a second filter. -/
theorem filter_eligible_filter (q : Record → Bool) (l : List Record) :
    (l.filter (fun p => eligible p)).filter q = l.filter (fun p => eligible p && q p) := by
  induction l with
  | nil => rfl
  | cons p rest ih =>
    by_cases h1 : eligible p = true
    · by_cases h2 : q p = true <;> simp [List.filter_cons, h1, h2, ih]
    · simp only [Bool.not_eq_true] at h1
      simp [List.filter_cons, h1, ih]

/-- C4: a record without identifying information (no truthy birth_date,
external_id, or first_name-and-last_name pair) is skipped before any
insertion attempt and contributes to neither count: both save counts are
functions of the eligible sublist alone, and a batch of only such records
resolves `{inserted: 0, errors: 0}` rather than an error, with the SQLite
transaction trace showing no insert attempt between BEGIN and COMMIT. -/
theorem c4_ineligible_records_skipped (f : Record → Bool) (people : List Record)
    (hne : people ≠ []) :
    (sqliteSaveResult f people).inserted =
      ((people.filter (fun p => eligible p)).filter f).length
    ∧ (sqliteSaveResult f people).errors =
        some ((people.filter (fun p => eligible p)).filter (fun p => !f p)).length
    ∧ ((∀ p ∈ people, eligible p = false) →
        (sqliteSave true f people).1 = .ok ⟨0, some 0⟩
        ∧ mysqlSave true f people = .ok ⟨0, some 0⟩
        ∧ (sqliteSave true f people).2 = [DbEvent.begin, DbEvent.commit]) := by
  refine ⟨?_, ?_, ?_⟩
  · rw [sqliteSaveResult_counts f people hne, filter_eligible_filter]
  · rw [sqliteSaveResult_counts f people hne, filter_eligible_filter]
  · intro hall
    have hfe : people.filter (fun p => eligible p) = [] := by
      rw [List.filter_eq_nil_iff]
      intro a ha
      simp [hall a ha]
    have hf1 : people.filter (fun p => eligible p && f p) = [] := by
      rw [List.filter_eq_nil_iff]
      intro a ha
      simp [hall a ha]
    have hf2 : people.filter (fun p => eligible p && !f p) = [] := by
      rw [List.filter_eq_nil_iff]
      intro a ha
      simp [hall a ha]
    refine ⟨?_, ?_, ?_⟩
    · unfold sqliteSave
      rw [isEmpty_false_of_ne people hne]
      simp [sqliteSaveResult_counts f people hne, hf1, hf2]
    · rw [mysqlSave_counts f people hne, hf1, hf2]
      rfl
    · unfold sqliteSave
      rw [isEmpty_false_of_ne people hne]
      simp [attemptEvents_eq, hfe]

/-- C4 witness: a single status-only record. -/
theorem c4_ineligible_records_skipped_witness :
    (sqliteSave true (fun _ => true) [[("status", "Inactif")]]).1 = .ok ⟨0, some 0⟩
    ∧ mysqlSave true (fun _ => true) [[("status", "Inactif")]] = .ok ⟨0, some 0⟩ := by
  have h := (c4_ineligible_records_skipped (fun _ => true) [[("status", "Inactif")]]
    (by decide)).2.2 (by decide)
  exact ⟨h.1, h.2.1⟩

/-- C5: per-record faults do not abort a non-empty batch: the save succeeds
exactly when the commit does, each eligible record is attempted once inside
the single BEGIN..COMMIT transaction (COMMIT last, issued once), both
adapters return `inserted` and `errors` counting engine-accepted and
engine-rejected eligible records independently per record, and
`inserted + errors` equals the number of eligible records attempted. -/
theorem c5_per_record_fault_isolation (commitOk : Bool) (f : Record → Bool)
    (people : List Record) (hne : people ≠ []) :
    (((sqliteSave commitOk f people).1.isOk = true) ↔ commitOk = true)
    ∧ ((mysqlSave commitOk f people).isOk = true ↔ commitOk = true)
    ∧ (sqliteSave true f people).1 =
        .ok ⟨(people.filter (fun p => eligible p && f p)).length,
             some (people.filter (fun p => eligible p && !f p)).length⟩
    ∧ mysqlSave true f people =
        .ok ⟨(people.filter (fun p => eligible p && f p)).length,
             some (people.filter (fun p => eligible p && !f p)).length⟩
    ∧ (sqliteSave true f people).2 =
        DbEvent.begin :: ((people.filter (fun p => eligible p)).map
          DbEvent.insertAttempt ++ [DbEvent.commit])
    ∧ (people.filter (fun p => eligible p && f p)).length +
        (people.filter (fun p => eligible p && !f p)).length =
        (people.filter (fun p => eligible p)).length := by
  refine ⟨?_, ?_, ?_, ?_, ?_, ?_⟩
  · unfold sqliteSave
    rw [isEmpty_false_of_ne people hne]
    cases commitOk <;> simp [Except.isOk, Except.toBool]
  · unfold mysqlSave
    rw [isEmpty_false_of_ne people hne]
    cases commitOk <;> simp [Except.isOk, Except.toBool]
  · unfold sqliteSave
    rw [isEmpty_false_of_ne people hne]
    simp [sqliteSaveResult_counts f people hne]
  · exact mysqlSave_counts f people hne
  · unfold sqliteSave
    rw [isEmpty_false_of_ne people hne]
    simp [attemptEvents_eq]
  · exact length_filter_split f people

/-- C5 witness: a two-record batch with one skipped and one inserted
record, commit succeeding. -/
theorem c5_per_record_fault_isolation_witness :
    (sqliteSave true (fun _ => true)
      [[("status", "Inactif")], [("birth_date", "1984-09-21")]]).1 = .ok ⟨1, some 0⟩
    ∧ (sqliteSave true (fun _ => true)
      [[("status", "Inactif")], [("birth_date", "1984-09-21")]]).2 =
        [DbEvent.begin, DbEvent.insertAttempt [("birth_date", "1984-09-21")],
         DbEvent.commit] := by
  have h := c5_per_record_fault_isolation true (fun _ => true)
    [[("status", "Inactif")], [("birth_date", "1984-09-21")]] (by decide)
  exact ⟨(h.2.2.1).trans (by rfl), (h.2.2.2.2.1).trans (by rfl)⟩

/-- C6 counterexample: `{name: "A B"}` has only canonical keys, yet the
normalizer changes it by deriving `last_name` and `first_name`. -/
theorem c6_counterexample :
    (∀ p ∈ ([("name", "A B")] : Record), p.1 ∈ canonicalFields)
    ∧ normalizePersonFields [("name", "A B")] ≠ [("name", "A B")]
    ∧ normalizePersonFields [("name", "A B")] =
        [("name", "A B"), ("last_name", "A"), ("first_name", "B")] := by
  refine ⟨by decide, by decide, rfl⟩

/-- C6 (amended): `normalizePersonFields` is idempotent on every record; and
a record whose keys are all canonical and whose `name`, `first_name` and
`last_name` are all present and non-empty is left unchanged (an
all-canonical record missing name components may still gain derived
fields). -/
theorem c6_normalize_idempotent (r : Record) :
    normalizePersonFields (normalizePersonFields r) = normalizePersonFields r
    ∧ ((∀ p ∈ r, p.1 ∈ canonicalFields) →
       truthy (jsGet r "name") = true →
       truthy (jsGet r "first_name") = true →
       truthy (jsGet r "last_name") = true →
       normalizePersonFields r = r) := by
  refine ⟨normalizePersonFields_idem r, ?_⟩
  intro hcanon hn hf hl
  have halias : ∀ p ∈ r, fieldMappings p.1 = none := fun p hp =>
    canonicalFields_not_aliased p.1 (hcanon p hp)
  unfold normalizePersonFields
  rw [applyFieldMappings_id r r halias, deriveNameSplit_noop r hf hl,
    deriveNameConcat_noop r hn]

/-- C6 witness: a fully populated canonical record. -/
theorem c6_normalize_idempotent_witness :
    normalizePersonFields (normalizePersonFields
      [("external_id", "1"), ("first_name", "David"), ("last_name", "Girard"),
       ("name", "Girard David")]) =
      normalizePersonFields
        [("external_id", "1"), ("first_name", "David"), ("last_name", "Girard"),
         ("name", "Girard David")]
    ∧ normalizePersonFields
        [("external_id", "1"), ("first_name", "David"), ("last_name", "Girard"),
         ("name", "Girard David")] =
      [("external_id", "1"), ("first_name", "David"), ("last_name", "Girard"),
       ("name", "Girard David")] := by
  have h := c6_normalize_idempotent
    [("external_id", "1"), ("first_name", "David"), ("last_name", "Girard"),
     ("name", "Girard David")]
  exact ⟨h.1, h.2 (by decide) (by decide) (by decide) (by decide)⟩

/-- C7: the record shaper fails exactly when the grid has fewer than two
rows or the mapped headers contain none of name,
first_name-with-last_name, email, external_id; this is its only failure
mode (missing standard headers merely warn) and failure returns no
records. -/
theorem c7_parse_failure_characterization (rawData : List (List Cell)) :
    ((parseExcelShape rawData).isOk = false) ↔
      (rawData.length < 2 ∨ identifiableHeaders (mappedHeadersOf rawData) = false) := by
  unfold parseExcelShape
  by_cases h1 : rawData.length < 2
  · simp [h1, Except.isOk, Except.toBool]
  · by_cases h2 : identifiableHeaders (mappedHeadersOf rawData) = true
    · simp [h1, h2, Except.isOk, Except.toBool]
    · simp only [Bool.not_eq_true] at h2
      simp [h1, h2, Except.isOk, Except.toBool]

/-- C8: the connection registry's lifecycle invariant: the first request
for an identifier creates a cached entry (invoking initialize once), a
subsequent request returns the very same connection and registry state
without re-initializing, closing removes the entry, and a request after
closing re-initializes. -/
theorem c8_connection_registry_lifecycle (reg : Registry) (connectionId : String) :
    jsGet ((getConnection reg connectionId).2).entries connectionId =
      some (getConnection reg connectionId).1
    ∧ getConnection ((getConnection reg connectionId).2) connectionId =
        ((getConnection reg connectionId).1, (getConnection reg connectionId).2)
    ∧ (jsGet reg.entries connectionId = none →
        ((getConnection reg connectionId).2).initCount = reg.initCount + 1)
    ∧ jsGet (closeConnection ((getConnection reg connectionId).2)
        connectionId).entries connectionId = none
    ∧ ((getConnection (closeConnection ((getConnection reg connectionId).2)
        connectionId) connectionId).2).initCount =
        ((getConnection reg connectionId).2).initCount + 1 := by
  cases hcached : jsGet reg.entries connectionId with
  | some c =>
    refine ⟨?_, ?_, ?_, ?_, ?_⟩ <;>
      simp [getConnection, closeConnection, hcached, jsGet_jsDelete_self]
  | none =>
    refine ⟨?_, ?_, ?_, ?_, ?_⟩ <;>
      simp [getConnection, closeConnection, hcached, jsGet_jsDelete_self,
        jsGet_jsSet_self]

/-- C8 witness: the empty registry and identifier `x`. -/
theorem c8_connection_registry_lifecycle_witness :
    jsGet ((getConnection ⟨[], 0, 0⟩ "x").2).entries "x" =
      some (getConnection ⟨[], 0, 0⟩ "x").1
    ∧ getConnection ((getConnection ⟨[], 0, 0⟩ "x").2) "x" =
        ((getConnection ⟨[], 0, 0⟩ "x").1, (getConnection ⟨[], 0, 0⟩ "x").2)
    ∧ ((getConnection ⟨[], 0, 0⟩ "x").2).initCount = (⟨[], 0, 0⟩ : Registry).initCount + 1
    ∧ jsGet (closeConnection ((getConnection ⟨[], 0, 0⟩ "x").2) "x").entries "x" = none
    ∧ ((getConnection (closeConnection ((getConnection ⟨[], 0, 0⟩ "x").2) "x")
        "x").2).initCount = ((getConnection ⟨[], 0, 0⟩ "x").2).initCount + 1 := by
  have h := c8_connection_registry_lifecycle ⟨[], 0, 0⟩ "x"
  exact ⟨h.1, h.2.1, h.2.2.1 rfl, h.2.2.2.1, h.2.2.2.2⟩

/-- C9: a record identified only by a multi-token `name` (no birth_date,
external_id, or name components) is ineligible at the adapter, yet the
registry-level save normalizes it first — deriving the components — so it
is inserted rather than skipped. -/
theorem c9_name_only_record_inserted (r : Record) (n : String)
    (halias : ∀ p ∈ r, fieldMappings p.1 = none)
    (hname : jsGet r "name" = some n)
    (hlen : 2 ≤ (jsSplitWS (jsTrim n)).length)
    (hbd : jsGet r "birth_date" = none)
    (hid : jsGet r "external_id" = none)
    (hf : jsGet r "first_name" = none)
    (hl : jsGet r "last_name" = none) :
    eligible r = false ∧ registrySave (fun _ => true) [r] = ⟨1, some 0⟩ := by
  have hn0 : n ≠ "" := by
    intro h0
    subst h0
    rw [show jsTrim "" = "" from rfl] at hlen
    simp [jsSplitWS] at hlen
  have hnt : truthy (jsGet r "name") = true := by
    rw [hname]
    simp [truthy, hn0]
  have hgd : (jsGet r "name").getD "" = n := by rw [hname]; rfl
  have hlen2 : 2 ≤ (jsSplitWS (jsTrim ((jsGet r "name").getD ""))).length := by
    rw [hgd]
    exact hlen
  obtain ⟨fl, ff, fn⟩ := deriveNameSplit_facts r hnt hlen2
  have hfl := fl hl
  have hff := ff hf
  have hp1 : applyFieldMappings r r = r := applyFieldMappings_id r r halias
  have hnorm : normalizePersonFields r = deriveNameSplit r := by
    unfold normalizePersonFields
    rw [hp1]
    refine deriveNameConcat_noop _ ?_
    rw [fn, hname]
    simp [truthy, hn0]
  constructor
  · simp [eligible, hbd, hid, hf, truthy]
  · have hh : ((jsSplitWS (jsTrim ((jsGet r "name").getD ""))).headD "") ≠ "" :=
      splitWS_head_ne _ hlen2
    have hj : jsJoinSpace (jsSplitWS (jsTrim ((jsGet r "name").getD ""))).tail ≠ "" :=
      splitWS_join_tail_ne _ hlen2
    have h5 : truthy (some ((jsSplitWS (jsTrim ((jsGet r "name").getD ""))).headD "")) =
        true := by simpa [truthy] using hh
    have h6 : truthy (some (jsJoinSpace
        (jsSplitWS (jsTrim ((jsGet r "name").getD ""))).tail)) = true := by
      simpa [truthy] using hj
    have helig : eligible (deriveNameSplit r) = true := by
      unfold eligible
      rw [hfl, hff, h5, h6]
      simp
    unfold registrySave
    have hmap : ([r].map normalizePersonFields) = [deriveNameSplit r] := by
      simp [hnorm]
    rw [hmap]
    unfold sqliteSaveResult
    rw [isEmpty_false_of_ne _ (by simp)]
    simp [insertLoop, helig]

/-- C9 witness: a record with only `name` and `status`. -/
theorem c9_name_only_record_inserted_witness :
    eligible [("name", "Girard David"), ("status", "Actif")] = false
    ∧ registrySave (fun _ => true) [[("name", "Girard David"), ("status", "Actif")]] =
        ⟨1, some 0⟩ := by
  have h := c9_name_only_record_inserted
    [("name", "Girard David"), ("status", "Actif")] "Girard David"
    (by decide) rfl (by decide) rfl rfl rfl rfl
  exact ⟨h.1, h.2⟩

/-- C10: an empty batch resolves `{inserted: 0}` with no `errors` field in
both adapters, and the orchestrator's count aggregation therefore reports
`inserted = 0` with an undefined (absent) `errors` value rather than the
number 0. -/
theorem c10_empty_save_omits_errors (f : Record → Bool) (chunkSize : Nat) :
    sqliteSaveResult f [] = ⟨0, none⟩
    ∧ (sqliteSave true f []).1 = .ok ⟨0, none⟩
    ∧ mysqlSave true f [] = .ok ⟨0, none⟩
    ∧ processCounts f chunkSize [] = (0, none) := by
  refine ⟨rfl, rfl, rfl, ?_⟩
  unfold processCounts
  have h : ([] : List Record).length ≤ chunkSize := Nat.zero_le chunkSize
  rw [if_pos h]
  rfl

end AsinImport
